import Mathlib

/-!
Shallow embedding of the narrative-interpretation core of the `day-one`
text-adventure repository (`src/app/api/game/route.ts`).  Strings are
modelled as lists of Unicode code points (`List Nat`), matching the
code-point-wise behaviour of the JavaScript string operations used by the
source (`toLowerCase`, `trim`, regex scanning over `[\w\s]`, character
literals).
-/

/-- Code points of a Lean string literal, used to write concrete inputs. -/
def str (s : String) : List Nat := s.data.map Char.toNat

/-- JavaScript `toLowerCase` restricted to the ASCII range, which is exact on
every character the source ever lowercases (captured groups consist of
`[\w\s]` characters only). -/
def lowerNat (n : Nat) : Nat :=
  if 65 ≤ n ∧ n ≤ 90 then n + 32 else n

/-- JavaScript whitespace (`\s`, also the set removed by `String.prototype.trim`). -/
def isWs (n : Nat) : Bool :=
  n == 9 || n == 10 || n == 11 || n == 12 || n == 13 || n == 32 ||
  n == 160 || n == 5760 || (8192 ≤ n && n ≤ 8202) || n == 8232 ||
  n == 8233 || n == 8239 || n == 8287 || n == 12288 || n == 65279

/-- JavaScript `\w`: ASCII letters, digits and underscore. -/
def isWordChar (n : Nat) : Bool :=
  (48 ≤ n && n ≤ 57) || (65 ≤ n && n ≤ 90) || (97 ≤ n && n ≤ 122) || n == 95

/-- The character class `[\w\s]` used by both capture groups in the source. -/
def isWordSpace (n : Nat) : Bool := isWordChar n || isWs n

/-- JavaScript `String.prototype.trim`: drop whitespace from both ends. -/
def trimChars (s : List Nat) : List Nat :=
  ((s.dropWhile isWs).reverse.dropWhile isWs).reverse

/-- The normalisation the source applies to every captured group:
`.toLowerCase().trim()`. -/
def normalizeText (s : List Nat) : List Nat :=
  trimChars (s.map lowerNat)

/-- Case-insensitive literal match at the head of the text (the `i` flag of
both regexes); returns the remaining text on success. -/
def startsWithCI : List Nat → List Nat → Option (List Nat)
  | rest, [] => some rest
  | [], _ :: _ => none
  | c :: cs, p :: ps =>
    if lowerNat c = lowerNat p then startsWithCI cs ps else none

/-- Greedy capture of `([\w\s]+)` followed by the closing delimiter
(code point `closer`).  Because the delimiters `*`, `{`, `}` are not in
`[\w\s]`, the regex engine's greedy-plus-backtracking behaviour coincides
with taking the maximal `[\w\s]` run and requiring the closer right after
it.  Returns the captured group and the text after the closer. -/
def captureRun (closer : Nat) (s : List Nat) : Option (List Nat × List Nat) :=
  match s.takeWhile isWordSpace, s.dropWhile isWordSpace with
  | _ :: _, c :: rest =>
      if c = closer then some (s.takeWhile isWordSpace, rest) else none
  | _, _ => none

/-- The movement-verb choices of the location regex
`you (?:move|arrive|travel|venture|go|enter|reach|find yourself|step) to \*([\w\s]+)\*`.
All start with distinct letters, so ordered choice equals any-of. -/
def locVerbs : List (List Nat) :=
  [str "move", str "arrive", str "travel", str "venture", str "go",
   str "enter", str "reach", str "find yourself", str "step"]

/-- Attempt to match the location pattern starting exactly at the head of
`s`; on success returns the captured group. -/
def matchLocAt (s : List Nat) : Option (List Nat) :=
  (startsWithCI s (str "you ")).bind fun r1 =>
  (locVerbs.findSome? fun v => startsWithCI r1 v).bind fun r2 =>
  (startsWithCI r2 (str " to *")).bind fun r3 =>
  (captureRun 42 r3).map Prod.fst

/-- Leftmost match of the location regex (`exec` without the `g` flag):
try each starting position from the left. -/
def extractLocation : List Nat → Option (List Nat)
  | [] => none
  | c :: tl =>
    match matchLocAt (c :: tl) with
    | some g => some g
    | none => extractLocation tl

/-- Attempt to match `you find \{([\w\s]+)\}` starting exactly at the head
of `s`; on success returns the captured group and the text after the match
(the regex engine's `lastIndex` position). -/
def matchItemAt (s : List Nat) : Option (List Nat × List Nat) :=
  (startsWithCI s (str "you find " ++ [123])).bind fun r1 =>
  captureRun 125 r1

/-- The `while ((itemMatch = itemRegex.exec(...)))` loop: repeatedly find
the next match, resuming after the end of the previous one.  Structured
with a fuel argument so the recursion is structural; `s.length` fuel is
provably sufficient (`scanItems_congr`). -/
def scanItems : Nat → List Nat → List (List Nat)
  | 0, _ => []
  | _ + 1, [] => []
  | fuel + 1, c :: tl =>
    match matchItemAt (c :: tl) with
    | some (g, rest) => g :: scanItems fuel rest
    | none => scanItems fuel tl

/-- All matches of the global item regex, leftmost first. -/
def extractItems (s : List Nat) : List (List Nat) :=
  scanItems s.length s

/-- The per-session game state of the source (`interface GameState`). -/
structure GameState where
  location : List Nat
  inventory : List (List Nat)
  recentEvents : List (List Nat)
  story : List (List Nat)
deriving DecidableEq

/-- The fixed initial state created on `action === 'new'`. -/
def initialState : GameState :=
  { location := str "village"
  , inventory := []
  , recentEvents := [str "You arrived in a quiet village."]
  , story := [str "You arrived in a quiet village."] }

/-- One step of the item loop body:
`if (!state.inventory.includes(item)) state.inventory.push(item)`. -/
def addItem (inv : List (List Nat)) (item : List Nat) : List (List Nat) :=
  if item ∈ inv then inv else inv ++ [item]

/-- Apply a list of (already normalised) item additions in order. -/
def applyAdds (inv : List (List Nat)) (adds : List (List Nat)) : List (List Nat) :=
  adds.foldl addItem inv

/-- The recent-events update: `shift()` the oldest entry once the list
holds 5 and then `push` the new one. -/
def pushEvent (evs : List (List Nat)) (e : List Nat) : List (List Nat) :=
  (if evs.length ≥ 5 then evs.tail else evs) ++ [e]

/-- `updateState` of the source (route.ts lines 196-230): trim the reply,
set the location from the first movement-phrase match if any, add each
`you find \x7b...\x7d` item not already held, and push the trimmed reply
onto `recentEvents` with the FIFO bound of 5. -/
def updateState (state : GameState) (response : List Nat) : GameState :=
  let formattedResponse := trimChars response
  let state1 :=
    match extractLocation formattedResponse with
    | some m => { state with location := normalizeText m }
    | none => state
  let state2 :=
    { state1 with
      inventory := applyAdds state1.inventory
        ((extractItems formattedResponse).map normalizeText) }
  { state2 with recentEvents := pushEvent state2.recentEvents formattedResponse }

/-- The `action === 'respond'` flow of the caller (route.ts lines 71-72):
`updateState(state, llmOutput); state.story.push(llmOutput)`. -/
def respondStep (state : GameState) (llmOutput : List Nat) : GameState :=
  let state1 := updateState state llmOutput
  { state1 with story := state1.story ++ [llmOutput] }

/-- All states reachable from the initial state by a sequence of replies. -/
def runReplies (replies : List (List Nat)) : GameState :=
  replies.foldl respondStep initialState

/-- A string is normalised when lowercasing and trimming both fix it. -/
def Normalized (s : List Nat) : Prop :=
  s.map lowerNat = s ∧ trimChars s = s

instance (s : List Nat) : Decidable (Normalized s) :=
  inferInstanceAs (Decidable (_ ∧ _))

/-! ### Helper lemmas about the matchers -/

theorem startsWithCI_length {s p r : List Nat} (h : startsWithCI s p = some r) :
    r.length + p.length = s.length := by
  induction p generalizing s with
  | nil =>
    simp only [startsWithCI, Option.some.injEq] at h
    subst h; simp
  | cons q ps ih =>
    cases s with
    | nil => simp [startsWithCI] at h
    | cons c cs =>
      simp only [startsWithCI] at h
      split at h
      · have := ih h; simp only [List.length_cons]; omega
      · exact absurd h (by simp)

theorem captureRun_some {closer : Nat} {s g rest : List Nat}
    (h : captureRun closer s = some (g, rest)) :
    g = s.takeWhile isWordSpace ∧ g ≠ [] ∧
      s.dropWhile isWordSpace = closer :: rest := by
  unfold captureRun at h
  split at h
  · next a l c r htk hdr =>
    split at h
    · next hc =>
      simp only [Option.some.injEq, Prod.mk.injEq] at h
      obtain ⟨hg, hr⟩ := h
      subst hg hc hr
      exact ⟨rfl, by simp [htk], hdr⟩
    · simp at h
  · simp at h

theorem captureRun_length {closer : Nat} {s g rest : List Nat}
    (h : captureRun closer s = some (g, rest)) : rest.length < s.length := by
  obtain ⟨hg, hne, hdr⟩ := captureRun_some h
  have hsplit := List.takeWhile_append_dropWhile (p := isWordSpace) (l := s)
  have : (s.takeWhile isWordSpace ++ s.dropWhile isWordSpace).length = s.length := by
    rw [hsplit]
  rw [List.length_append, hdr] at this
  have hgl : 1 ≤ (s.takeWhile isWordSpace).length := by
    rw [← hg]; cases g with
    | nil => exact absurd rfl hne
    | cons x xs => simp
  simp only [List.length_cons] at this
  omega

theorem captureRun_wordSpace {closer : Nat} {s g rest : List Nat}
    (h : captureRun closer s = some (g, rest)) : ∀ c ∈ g, isWordSpace c = true := by
  obtain ⟨hg, -, -⟩ := captureRun_some h
  intro c hc
  rw [hg] at hc
  exact List.mem_takeWhile_imp hc

theorem matchItemAt_some {s : List Nat} {g rest : List Nat}
    (h : matchItemAt s = some (g, rest)) :
    rest.length < s.length ∧ g ≠ [] ∧ ∀ c ∈ g, isWordSpace c = true := by
  unfold matchItemAt at h
  cases h1 : startsWithCI s (str "you find " ++ [123]) with
  | none => rw [h1] at h; simp at h
  | some r1 =>
    rw [h1] at h; simp only [Option.some_bind] at h
    have hlen := startsWithCI_length h1
    have hr := captureRun_length h
    refine ⟨by simp [str] at hlen; omega, (captureRun_some h).2.1, captureRun_wordSpace h⟩

theorem matchLocAt_some {s g : List Nat} (h : matchLocAt s = some g) :
    g ≠ [] ∧ ∀ c ∈ g, isWordSpace c = true := by
  unfold matchLocAt at h
  cases h1 : startsWithCI s (str "you ") with
  | none => rw [h1] at h; simp at h
  | some r1 =>
    rw [h1] at h; simp only [Option.some_bind] at h
    cases h2 : locVerbs.findSome? fun v => startsWithCI r1 v with
    | none => rw [h2] at h; simp at h
    | some r2 =>
      rw [h2] at h; simp only [Option.some_bind] at h
      cases h3 : startsWithCI r2 (str " to *") with
      | none => rw [h3] at h; simp at h
      | some r3 =>
        rw [h3] at h; simp only [Option.some_bind] at h
        cases h4 : captureRun 42 r3 with
        | none => rw [h4] at h; simp at h
        | some pr =>
          rw [h4] at h
          simp only [Option.map_some', Option.some.injEq] at h
          obtain ⟨g', rest⟩ := pr
          subst h
          exact ⟨(captureRun_some h4).2.1, captureRun_wordSpace h4⟩

theorem extractLocation_wordSpace {t g : List Nat}
    (h : extractLocation t = some g) : ∀ c ∈ g, isWordSpace c = true := by
  induction t with
  | nil => simp [extractLocation] at h
  | cons c tl ih =>
    simp only [extractLocation] at h
    cases hm : matchLocAt (c :: tl) with
    | some g' =>
      rw [hm] at h
      simp only [Option.some.injEq] at h
      subst h
      exact (matchLocAt_some hm).2
    | none => rw [hm] at h; exact ih h

theorem scanItems_wordSpace :
    ∀ (fuel : Nat) (s : List Nat), ∀ g ∈ scanItems fuel s, ∀ c ∈ g, isWordSpace c = true := by
  intro fuel
  induction fuel with
  | zero => intro s g hg; simp [scanItems] at hg
  | succ n ih =>
    intro s g hg
    cases s with
    | nil => simp [scanItems] at hg
    | cons c tl =>
      simp only [scanItems] at hg
      cases hm : matchItemAt (c :: tl) with
      | some pr =>
        obtain ⟨g', rest⟩ := pr
        rw [hm] at hg
        simp only [List.mem_cons] at hg
        rcases hg with rfl | hg
        · exact (matchItemAt_some hm).2.2
        · exact ih rest g hg
      | none => rw [hm] at hg; exact ih tl g hg

theorem extractItems_wordSpace {t : List Nat} :
    ∀ g ∈ extractItems t, ∀ c ∈ g, isWordSpace c = true :=
  scanItems_wordSpace t.length t

theorem scanItems_congr :
    ∀ (f1 f2 : Nat) (s : List Nat), s.length ≤ f1 → s.length ≤ f2 →
      scanItems f1 s = scanItems f2 s := by
  intro f1
  induction f1 with
  | zero =>
    intro f2 s h1 _
    have : s = [] := List.length_eq_zero.mp (Nat.le_zero.mp h1)
    subst this
    cases f2 <;> simp [scanItems]
  | succ n ih =>
    intro f2 s h1 h2
    cases s with
    | nil => cases f2 <;> simp [scanItems]
    | cons c tl =>
      cases f2 with
      | zero => simp at h2
      | succ m =>
        simp only [scanItems]
        cases hm : matchItemAt (c :: tl) with
        | some pr =>
          obtain ⟨g, rest⟩ := pr
          have hlt := (matchItemAt_some hm).1
          simp only [List.length_cons] at h1 h2 hlt
          show g :: scanItems n rest = g :: scanItems m rest
          rw [ih m rest (by omega) (by omega)]
        | none =>
          simp only [List.length_cons] at h1 h2
          show scanItems n tl = scanItems m tl
          rw [ih m tl (by omega) (by omega)]

/-! ### Helper lemmas about the state operations -/

theorem applyAdds_extends (adds : List (List Nat)) :
    ∀ inv, ∃ t, applyAdds inv adds = inv ++ t := by
  induction adds with
  | nil => intro inv; exact ⟨[], by simp [applyAdds]⟩
  | cons a rest ih =>
    intro inv
    show ∃ t, applyAdds (addItem inv a) rest = inv ++ t
    obtain ⟨t, ht⟩ := ih (addItem inv a)
    by_cases hmem : a ∈ inv
    · simp only [addItem, if_pos hmem] at ht
      exact ⟨t, by simp only [addItem, if_pos hmem]; exact ht⟩
    · simp only [addItem, if_neg hmem] at ht
      refine ⟨[a] ++ t, ?_⟩
      simp only [addItem, if_neg hmem]
      rw [ht, List.append_assoc]

theorem mem_applyAdds_left {inv : List (List Nat)} {x : List Nat} (hx : x ∈ inv)
    (adds : List (List Nat)) : x ∈ applyAdds inv adds := by
  obtain ⟨t, ht⟩ := applyAdds_extends adds inv
  rw [ht]
  exact List.mem_append_left t hx

theorem mem_applyAdds_adds {adds : List (List Nat)} {a : List Nat} (ha : a ∈ adds) :
    ∀ inv, a ∈ applyAdds inv adds := by
  induction adds with
  | nil => simp at ha
  | cons b rest ih =>
    intro inv
    have hstep : applyAdds inv (b :: rest) = applyAdds (addItem inv b) rest := rfl
    rw [hstep]
    rcases List.mem_cons.mp ha with rfl | ha'
    · refine mem_applyAdds_left ?_ rest
      unfold addItem
      split
      · assumption
      · simp
    · exact ih ha' (addItem inv b)

theorem applyAdds_of_all_mem {inv : List (List Nat)} :
    ∀ {adds : List (List Nat)}, (∀ a ∈ adds, a ∈ inv) → applyAdds inv adds = inv := by
  intro adds
  induction adds with
  | nil => intro _; rfl
  | cons a rest ih =>
    intro h
    have ha : a ∈ inv := h a (by simp)
    have hstep : applyAdds inv (a :: rest) = applyAdds (addItem inv a) rest := rfl
    rw [hstep]
    unfold addItem
    rw [if_pos ha]
    exact ih fun b hb => h b (by simp [hb])

theorem addItem_nodup {inv : List (List Nat)} {a : List Nat} (h : inv.Nodup) :
    (addItem inv a).Nodup := by
  unfold addItem
  split
  · exact h
  · next hn => simp [List.nodup_append, h, hn]

theorem applyAdds_nodup {adds : List (List Nat)} :
    ∀ {inv : List (List Nat)}, inv.Nodup → (applyAdds inv adds).Nodup := by
  induction adds with
  | nil => intro inv h; exact h
  | cons a rest ih =>
    intro inv h
    exact ih (addItem_nodup h)

theorem pushEvent_length_le {evs : List (List Nat)} (h : evs.length ≤ 5)
    (e : List Nat) : (pushEvent evs e).length ≤ 5 := by
  unfold pushEvent
  split
  · next h5 => simp [List.length_tail]; omega
  · next h5 => simp; omega

theorem updateState_recentEvents (s : GameState) (r : List Nat) :
    (updateState s r).recentEvents = pushEvent s.recentEvents (trimChars r) := by
  cases h : extractLocation (trimChars r) <;> simp [updateState, h]

theorem updateState_story (s : GameState) (r : List Nat) :
    (updateState s r).story = s.story := by
  cases h : extractLocation (trimChars r) <;> simp [updateState, h]

theorem updateState_inventory (s : GameState) (r : List Nat) :
    (updateState s r).inventory =
      applyAdds s.inventory ((extractItems (trimChars r)).map normalizeText) := by
  cases h : extractLocation (trimChars r) <;> simp [updateState, h]

theorem updateState_location_none {s : GameState} {r : List Nat}
    (h : extractLocation (trimChars r) = none) :
    (updateState s r).location = s.location := by
  simp [updateState, h]

theorem updateState_location_some {s : GameState} {r : List Nat} {g : List Nat}
    (h : extractLocation (trimChars r) = some g) :
    (updateState s r).location = normalizeText g := by
  simp [updateState, h]

/-! ### Normalisation lemmas: `toLowerCase` and `trim` -/

theorem lowerNat_idem (n : Nat) : lowerNat (lowerNat n) = lowerNat n := by
  unfold lowerNat
  split
  · split <;> omega
  · rfl

theorem isWs_iff (n : Nat) : isWs n = true ↔
    (n = 9 ∨ n = 10 ∨ n = 11 ∨ n = 12 ∨ n = 13 ∨ n = 32 ∨ n = 160 ∨ n = 5760 ∨
     (8192 ≤ n ∧ n ≤ 8202) ∨ n = 8232 ∨ n = 8233 ∨ n = 8239 ∨ n = 8287 ∨
     n = 12288 ∨ n = 65279) := by
  simp [isWs]
  omega

theorem isWs_lowerNat (n : Nat) : isWs (lowerNat n) = isWs n := by
  unfold lowerNat
  split
  · next h => rw [Bool.eq_iff_iff, isWs_iff, isWs_iff]; omega
  · rfl

theorem map_lowerNat_idem (s : List Nat) :
    (s.map lowerNat).map lowerNat = s.map lowerNat := by
  rw [List.map_map]
  have h : lowerNat ∘ lowerNat = lowerNat := funext lowerNat_idem
  rw [h]

theorem dropWhile_map_lowerNat (s : List Nat) :
    (s.map lowerNat).dropWhile isWs = (s.dropWhile isWs).map lowerNat := by
  induction s with
  | nil => rfl
  | cons c tl ih =>
    by_cases hc : isWs c = true
    · simp [List.dropWhile_cons, isWs_lowerNat, hc, ih]
    · simp [List.dropWhile_cons, isWs_lowerNat, hc]

theorem trimChars_map_lowerNat (s : List Nat) :
    trimChars (s.map lowerNat) = (trimChars s).map lowerNat := by
  unfold trimChars
  rw [dropWhile_map_lowerNat, ← List.map_reverse, dropWhile_map_lowerNat,
    ← List.map_reverse]

theorem dropWhile_length_le (p : Nat → Bool) (l : List Nat) :
    (l.dropWhile p).length ≤ l.length := by
  induction l with
  | nil => simp
  | cons a t ih =>
    by_cases h : p a = true
    · simp only [List.dropWhile_cons, h, if_true]
      simp only [List.length_cons]
      omega
    · simp [List.dropWhile_cons, h]

theorem dropWhile_dropWhile (p : Nat → Bool) (l : List Nat) :
    (l.dropWhile p).dropWhile p = l.dropWhile p := by
  induction l with
  | nil => rfl
  | cons a t ih =>
    by_cases h : p a = true
    · simp [List.dropWhile_cons, h, ih]
    · simp [List.dropWhile_cons, h]

theorem dropWhile_suffix_decomp (p : Nat → Bool) (l : List Nat) :
    ∃ t, l = t ++ l.dropWhile p := by
  induction l with
  | nil => exact ⟨[], rfl⟩
  | cons a tl ih =>
    by_cases h : p a = true
    · obtain ⟨t, ht⟩ := ih
      refine ⟨a :: t, ?_⟩
      simp only [List.dropWhile_cons, h, if_true, List.cons_append, List.cons.injEq,
        true_and]
      exact ht
    · exact ⟨[], by simp [List.dropWhile_cons, h]⟩

theorem dropWhile_eq_self_of_append {p : Nat → Bool} {u v r : List Nat}
    (hu : u.dropWhile p = u) (heq : u = v ++ r) : v.dropWhile p = v := by
  cases v with
  | nil => rfl
  | cons a v' =>
    have ha : p a = false := by
      cases hpa : p a
      · rfl
      · rw [heq] at hu
        simp only [List.cons_append, List.dropWhile_cons, hpa, if_true] at hu
        have hle := dropWhile_length_le p (v' ++ r)
        have := congrArg List.length hu
        simp only [List.length_cons] at this
        omega
    simp [List.dropWhile_cons, ha]

theorem trimChars_idem (s : List Nat) : trimChars (trimChars s) = trimChars s := by
  unfold trimChars
  have hu : (s.dropWhile isWs).dropWhile isWs = s.dropWhile isWs :=
    dropWhile_dropWhile isWs s
  have hw : ((s.dropWhile isWs).reverse.dropWhile isWs).dropWhile isWs =
      (s.dropWhile isWs).reverse.dropWhile isWs :=
    dropWhile_dropWhile isWs (s.dropWhile isWs).reverse
  obtain ⟨t, ht⟩ := dropWhile_suffix_decomp isWs (s.dropWhile isWs).reverse
  have hdecomp : s.dropWhile isWs =
      ((s.dropWhile isWs).reverse.dropWhile isWs).reverse ++ t.reverse := by
    have := congrArg List.reverse ht
    rwa [List.reverse_reverse, List.reverse_append] at this
  have hB : (((s.dropWhile isWs).reverse.dropWhile isWs).reverse).dropWhile isWs =
      ((s.dropWhile isWs).reverse.dropWhile isWs).reverse :=
    dropWhile_eq_self_of_append hu hdecomp
  rw [hB, List.reverse_reverse, hw]

theorem normalizeText_normalized (g : List Nat) : Normalized (normalizeText g) := by
  constructor
  · unfold normalizeText
    rw [← trimChars_map_lowerNat, map_lowerNat_idem]
  · exact trimChars_idem _

/-! ### Invariant preservation -/

theorem applyAdds_all_prop {P : List Nat → Prop} {adds : List (List Nat)} :
    ∀ {inv : List (List Nat)}, (∀ x ∈ inv, P x) → (∀ a ∈ adds, P a) →
      ∀ x ∈ applyAdds inv adds, P x := by
  induction adds with
  | nil => intro inv hi _ x hx; exact hi x hx
  | cons a rest ih =>
    intro inv hi ha x hx
    have hstep : applyAdds inv (a :: rest) = applyAdds (addItem inv a) rest := rfl
    rw [hstep] at hx
    refine ih ?_ (fun b hb => ha b (by simp [hb])) x hx
    intro y hy
    unfold addItem at hy
    split at hy
    · exact hi y hy
    · rcases List.mem_append.mp hy with h1 | h1
      · exact hi y h1
      · rw [List.mem_singleton.mp h1]
        exact ha a (by simp)

theorem updateState_preserves {s : GameState} (r : List Nat)
    (h1 : Normalized s.location) (h2 : ∀ x ∈ s.inventory, Normalized x)
    (h3 : s.inventory.Nodup) :
    Normalized (updateState s r).location ∧
      (∀ x ∈ (updateState s r).inventory, Normalized x) ∧
      (updateState s r).inventory.Nodup := by
  refine ⟨?_, ?_, ?_⟩
  · cases h : extractLocation (trimChars r) with
    | none => rw [updateState_location_none h]; exact h1
    | some g => rw [updateState_location_some h]; exact normalizeText_normalized g
  · rw [updateState_inventory]
    refine applyAdds_all_prop h2 ?_
    intro a ha
    obtain ⟨g, -, rfl⟩ := List.mem_map.mp ha
    exact normalizeText_normalized g
  · rw [updateState_inventory]
    exact applyAdds_nodup h3

theorem respondStep_recentEvents (s : GameState) (r : List Nat) :
    (respondStep s r).recentEvents = pushEvent s.recentEvents (trimChars r) := by
  simp [respondStep, updateState_recentEvents]

theorem foldl_respondStep_inv (replies : List (List Nat)) :
    ∀ s : GameState,
      Normalized s.location → (∀ x ∈ s.inventory, Normalized x) →
      s.inventory.Nodup → s.recentEvents.length ≤ 5 →
      Normalized (replies.foldl respondStep s).location ∧
        (∀ x ∈ (replies.foldl respondStep s).inventory, Normalized x) ∧
        (replies.foldl respondStep s).inventory.Nodup ∧
        (replies.foldl respondStep s).recentEvents.length ≤ 5 := by
  induction replies with
  | nil => intro s h1 h2 h3 h4; exact ⟨h1, h2, h3, h4⟩
  | cons r rest ih =>
    intro s h1 h2 h3 h4
    have hstep := updateState_preserves r h1 h2 h3
    have hev : (respondStep s r).recentEvents.length ≤ 5 := by
      rw [respondStep_recentEvents]
      exact pushEvent_length_le h4 _
    have hloc : (respondStep s r).location = (updateState s r).location := rfl
    have hinv : (respondStep s r).inventory = (updateState s r).inventory := rfl
    exact ih (respondStep s r) (hloc ▸ hstep.1) (hinv ▸ hstep.2.1)
      (hinv ▸ hstep.2.2) hev

example : extractLocation (str "You move to *Dark Cave*") = some (str "Dark Cave") := by decide
example : extractItems (str "You find \x7brusty key\x7d and \x7bgold\x7d!") =
    [str "rusty key"] := by decide
example : extractItems (str "You find \x7brusty key\x7d and you find \x7bgold\x7d!") =
    [str "rusty key", str "gold"] := by decide
example : extractLocation (str "A *Dark Cave* lies ahead") = none := by decide
example : extractItems (str "Some text \x7biron key\x7d more text") = [] := by decide
example : extractLocation (str "You move to *a* and you move to *b*") = some (str "a") := by
  decide

/-! ### Claim theorems -/

/-- Claim C1 counterexample: the code has no structured-extraction path.
Applying the JSON-object reply to the initial state leaves the location at
"village" and the inventory empty, so it does not set location "forest"
nor inventory ["sword"] as the claim states. -/
theorem claimC1_counterexample :
    ¬ ((updateState initialState
          (str "\x7b\"location\": \"Forest\", \"inventory\": [\"Sword\"]\x7d")).location =
            str "forest" ∧
       (updateState initialState
          (str "\x7b\"location\": \"Forest\", \"inventory\": [\"Sword\"]\x7d")).inventory =
            [str "sword"]) := by
  decide

/-- Claim C1, amended: interpretation has a single marker-based path and no
JSON route; a reply that parses as a JSON object matches neither marker
pattern, so applying `'\x7b"location": "Forest", "inventory": ["Sword"]\x7d'`
to any GameState leaves location and inventory unchanged and only records
the trimmed reply as an event. -/
theorem claimC1 (s : GameState) :
    updateState s (str "\x7b\"location\": \"Forest\", \"inventory\": [\"Sword\"]\x7d") =
      { s with recentEvents := (pushEvent s.recentEvents
          (str "\x7b\"location\": \"Forest\", \"inventory\": [\"Sword\"]\x7d")) } := by
  have ht : trimChars (str "\x7b\"location\": \"Forest\", \"inventory\": [\"Sword\"]\x7d") =
      str "\x7b\"location\": \"Forest\", \"inventory\": [\"Sword\"]\x7d" := by decide
  have hl : extractLocation
      (str "\x7b\"location\": \"Forest\", \"inventory\": [\"Sword\"]\x7d") = none := by decide
  have hi : extractItems
      (str "\x7b\"location\": \"Forest\", \"inventory\": [\"Sword\"]\x7d") = [] := by decide
  obtain ⟨loc, inv, evs, st⟩ := s
  simp [updateState, ht, hl, hi, applyAdds]

/-- Claim C2 counterexample: a braced item without the phrase "you find"
directly before it is not extracted; applying "Some text \x7biron key\x7d
more text" to the initial state leaves the inventory empty instead of
appending "iron key". -/
theorem claimC2_counterexample :
    ¬ ((updateState initialState (str "Some text \x7biron key\x7d more text")).inventory =
        initialState.inventory ++ [str "iron key"]) := by
  decide

/-- Claim C2, amended: a braced item is added only when the (case-insensitive)
phrase "you find " immediately precedes the braces; applying
"Some text you find \x7biron key\x7d more text" to any GameState whose
inventory lacks "iron key" appends "iron key" and leaves the location
unchanged, recording the trimmed reply as an event. -/
theorem claimC2 (s : GameState) (h : str "iron key" ∉ s.inventory) :
    updateState s (str "Some text you find \x7biron key\x7d more text") =
      { s with inventory := s.inventory ++ [str "iron key"],
               recentEvents := (pushEvent s.recentEvents
                 (str "Some text you find \x7biron key\x7d more text")) } := by
  have ht : trimChars (str "Some text you find \x7biron key\x7d more text") =
      str "Some text you find \x7biron key\x7d more text" := by decide
  have hl : extractLocation (str "Some text you find \x7biron key\x7d more text") =
      none := by decide
  have hi : extractItems (str "Some text you find \x7biron key\x7d more text") =
      [str "iron key"] := by decide
  have hn : normalizeText (str "iron key") = str "iron key" := by decide
  obtain ⟨loc, inv, evs, st⟩ := s
  simp only [] at h
  simp [updateState, ht, hl, hi, hn, applyAdds, addItem, h]

/-- Claim C2 witness: the amended theorem applied to the initial state. -/
theorem claimC2_witness :
    (str "iron key" ∉ initialState.inventory) ∧
      updateState initialState (str "Some text you find \x7biron key\x7d more text") =
        { initialState with
            inventory := initialState.inventory ++ [str "iron key"],
            recentEvents := (pushEvent initialState.recentEvents
              (str "Some text you find \x7biron key\x7d more text")) } :=
  ⟨by decide, claimC2 initialState (by decide)⟩

/-- Claim C3 counterexample: an asterisk-delimited phrase that does not follow
"you <movement verb> to " is ignored: applying "A *Dark Cave* lies ahead"
(whose only marker is the asterisk pair, with no braces and no JSON) to the
initial state leaves the location at "village" instead of setting
"dark cave". -/
theorem claimC3_counterexample :
    ¬ ((updateState initialState (str "A *Dark Cave* lies ahead")).location =
        str "dark cave") := by
  decide

/-- Claim C3, amended: the asterisk marker updates the location only when it
follows a recognised movement phrase; for every state, applying
"You move to *Dark Cave*" sets location to the normalised "dark cave",
leaves the inventory unchanged, and appends the full trimmed raw text to
recentEvents and the raw text to the story transcript. -/
theorem claimC3 (s : GameState) :
    respondStep s (str "You move to *Dark Cave*") =
      { s with location := str "dark cave",
               recentEvents := pushEvent s.recentEvents (str "You move to *Dark Cave*"),
               story := s.story ++ [str "You move to *Dark Cave*"] } := by
  have ht : trimChars (str "You move to *Dark Cave*") =
      str "You move to *Dark Cave*" := by decide
  have hl : extractLocation (str "You move to *Dark Cave*") =
      some (str "Dark Cave") := by decide
  have hn : normalizeText (str "Dark Cave") = str "dark cave" := by decide
  have hi : extractItems (str "You move to *Dark Cave*") = [] := by decide
  obtain ⟨loc, inv, evs, st⟩ := s
  simp [respondStep, updateState, ht, hl, hn, hi, applyAdds]

/-- Claim C4: every state reachable from the initial state keeps
`recentEvents.length ≤ 5`, and the push is strict FIFO: pushing six events
into an empty list yields exactly the last five. -/
theorem claimC4 :
    (∀ replies : List (List Nat), (runReplies replies).recentEvents.length ≤ 5) ∧
      (∀ e1 e2 e3 e4 e5 e6 : List Nat,
        [e1, e2, e3, e4, e5, e6].foldl pushEvent ([] : List (List Nat)) =
          [e2, e3, e4, e5, e6]) := by
  constructor
  · intro replies
    exact (foldl_respondStep_inv replies initialState (by decide) (by decide)
      (by decide) (by decide)).2.2.2
  · intro e1 e2 e3 e4 e5 e6
    rfl

/-- Claim C5: marker-mode inventory application is purely additive and
duplicate-free: with `a` already held and `b` new, applying `[a, b]` appends
only `b`; every application extends the inventory on the right (preserving
the order of existing items, removing nothing); and it preserves freedom
from duplicates. -/
theorem claimC5 (inv : List (List Nat)) (a b : List Nat)
    (ha : a ∈ inv) (hb : b ∉ inv) :
    applyAdds inv [a, b] = inv ++ [b] ∧
      (∀ adds : List (List Nat), ∃ t, applyAdds inv adds = inv ++ t) ∧
      (inv.Nodup → ∀ adds : List (List Nat), (applyAdds inv adds).Nodup) := by
  refine ⟨?_, fun adds => applyAdds_extends adds inv,
    fun hn adds => applyAdds_nodup hn⟩
  show addItem (addItem inv a) b = inv ++ [b]
  unfold addItem
  rw [if_pos ha, if_neg hb]

/-- Claim C5 witness: the theorem applied to a singleton inventory. -/
theorem claimC5_witness :
    (str "sword" ∈ [str "sword"]) ∧ str "torch" ∉ [str "sword"] ∧
      applyAdds [str "sword"] [str "sword", str "torch"] =
        [str "sword"] ++ [str "torch"] :=
  ⟨by decide, by decide,
    (claimC5 [str "sword"] (str "sword") (str "torch") (by decide) (by decide)).1⟩

/-- Claim C6: when every item extracted from the reply is already in the
inventory, re-applying the interpretation leaves the inventory exactly
unchanged but still enqueues the trimmed reply as an event. -/
theorem claimC6 (s : GameState) (r : List Nat)
    (h : ∀ g ∈ extractItems (trimChars r), normalizeText g ∈ s.inventory) :
    (updateState s r).inventory = s.inventory ∧
      (updateState s r).recentEvents = pushEvent s.recentEvents (trimChars r) := by
  refine ⟨?_, updateState_recentEvents s r⟩
  rw [updateState_inventory]
  refine applyAdds_of_all_mem ?_
  intro a hmem
  obtain ⟨g, hg, rfl⟩ := List.mem_map.mp hmem
  exact h g hg

/-- Claim C6 witness: re-applying "You find \x7biron key\x7d" to a state that
already holds "iron key" leaves the inventory unchanged. -/
theorem claimC6_witness :
    (updateState ⟨str "village", [str "iron key"], [str "e"], [str "e"]⟩
        (str "You find \x7biron key\x7d")).inventory = [str "iron key"] :=
  (claimC6 ⟨str "village", [str "iron key"], [str "e"], [str "e"]⟩
    (str "You find \x7biron key\x7d") (by decide)).1

/-- Claim C7: the state update is a total function: for every state and every
reply it yields a well-defined result whose story is untouched and whose
recentEvents always receives the trimmed raw text, and it degrades to a
per-field no-op when a scan finds nothing (no location match leaves the
location unchanged; no item match leaves the inventory unchanged). -/
theorem claimC7 (s : GameState) (r : List Nat) :
    (updateState s r).story = s.story ∧
      (updateState s r).recentEvents = pushEvent s.recentEvents (trimChars r) ∧
      (extractLocation (trimChars r) = none →
        (updateState s r).location = s.location) ∧
      (extractItems (trimChars r) = [] →
        (updateState s r).inventory = s.inventory) := by
  refine ⟨updateState_story s r, updateState_recentEvents s r,
    fun h => updateState_location_none h, ?_⟩
  intro h
  rw [updateState_inventory, h]
  rfl

/-- Claim C7 witness: the empty reply (no markers, not JSON) is a no-op on
location and inventory. -/
theorem claimC7_witness :
    (updateState initialState (str "")).location = initialState.location ∧
      (updateState initialState (str "")).inventory = initialState.inventory :=
  ⟨(claimC7 initialState (str "")).2.2.1 (by decide),
   (claimC7 initialState (str "")).2.2.2 (by decide)⟩

/-- Claim C8: after any sequence of updates from the initial state, the
location is a lowercase trimmed string, every inventory entry is a lowercase
trimmed string, and the inventory has no duplicates. -/
theorem claimC8 (replies : List (List Nat)) :
    Normalized (runReplies replies).location ∧
      (∀ x ∈ (runReplies replies).inventory, Normalized x) ∧
      (runReplies replies).inventory.Nodup := by
  have h := foldl_respondStep_inv replies initialState (by decide) (by decide)
    (by decide) (by decide)
  exact ⟨h.1, h.2.1, h.2.2.1⟩

/-- Claim C8 witness: the entry produced by finding "Iron Key" is stored
normalised. -/
theorem claimC8_witness : Normalized (str "iron key") :=
  (claimC8 [str "You find \x7bIron Key\x7d"]).2.1 (str "iron key") (by decide)

/-- Claim C9: `updateState` never touches the story transcript; the caller
appends the raw reply to the story separately after the state update. -/
theorem claimC9 (s : GameState) (r : List Nat) :
    (updateState s r).story = s.story ∧
      (respondStep s r).story = s.story ++ [r] := by
  refine ⟨updateState_story s r, ?_⟩
  show (updateState s r).story ++ [r] = s.story ++ [r]
  rw [updateState_story]

/-- Claim C10: both capture groups only ever contain `[\w\s]` characters, so
a delimited location or braced item containing any other character (such as
a hyphen) matches nothing: "You move to *cave-mouth*" changes no location
and "You find \x7bpo-uch\x7d" changes no inventory. -/
theorem claimC10 :
    (∀ t g : List Nat, extractLocation t = some g →
        ∀ c ∈ g, isWordSpace c = true) ∧
      (∀ t : List Nat, ∀ g ∈ extractItems t, ∀ c ∈ g, isWordSpace c = true) ∧
      (∀ s : GameState,
        (updateState s (str "You move to *cave-mouth*")).location = s.location) ∧
      (∀ s : GameState,
        (updateState s (str "You find \x7bpo-uch\x7d")).inventory = s.inventory) := by
  refine ⟨fun t g h => extractLocation_wordSpace h,
    fun t => extractItems_wordSpace, ?_, ?_⟩
  · intro s
    exact updateState_location_none (by decide)
  · intro s
    rw [updateState_inventory,
      show extractItems (trimChars (str "You find \x7bpo-uch\x7d")) = [] from by decide]
    rfl

/-- Claim C10 witness: the theorem applied to a concrete matching location. -/
theorem claimC10_witness : isWordSpace 99 = true :=
  claimC10.1 (str "You go to *c*") (str "c") (by decide) 99 (by decide)
